import Mathlib

/-
Verification of the scoring and ranking engine of the licitaciones pipeline
(`your_script.py`). The Python functions are embedded as executable Lean
definitions: text normalization, keyword / category / monetary / client
scoring, duplicate removal, Top-100 selection and the relative-weighting
step. Machine floats of the script are modelled by rationals, Python sets
by finite sets, and pandas dataframes by lists of records.
-/

/-- Model of the Unicode data consulted by the Python standard library inside
`eliminar_tildes_y_normalizar`: the per-character canonical decomposition used
by `unicodedata.normalize` with form `NFD`, the combining-mark test
`unicodedata.category(char) == 'Mn'`, and the per-character lower-case mapping
of `str.lower`. -/
structure UnicodeData where
  nfd : Char → List Char
  isMn : Char → Bool
  toLower : Char → Char

/-- The whitespace class of the regex `\s` and of `str.strip` (ASCII part). -/
def isSpaceChar (c : Char) : Bool :=
  c = ' ' || c = '\t' || c = '\n' || c = '\r' || c = Char.ofNat 11 || c = Char.ofNat 12

/-- `re.sub` with pattern `\s+` and replacement a single space: every maximal
run of whitespace characters becomes one space. -/
def collapseWs : List Char → List Char
  | [] => []
  | c :: rest =>
    if isSpaceChar c then ' ' :: collapseWs (rest.dropWhile isSpaceChar)
    else c :: collapseWs rest
termination_by l => l.length
decreasing_by
  · exact Nat.lt_succ_of_le (List.Sublist.length_le (List.dropWhile_sublist _))
  · exact Nat.lt_succ_self _

/-- `str.strip`: drop leading and trailing whitespace. -/
def pyStrip (l : List Char) : List Char :=
  ((l.dropWhile isSpaceChar).reverse.dropWhile isSpaceChar).reverse

/-- `str.strip` at the string level. -/
def pyStripStr (s : String) : String :=
  ⟨pyStrip s.data⟩

/-- `str.upper` (ASCII model), applied character by character. -/
def pyUpperStr (s : String) : String :=
  ⟨s.data.map Char.toUpper⟩

/-- `str.lower` for a given lower-case table, applied character by character. -/
def pyLowerStr (u : UnicodeData) (s : String) : String :=
  ⟨s.data.map u.toLower⟩

/-- Body of `eliminar_tildes_y_normalizar` on a non-empty string, as a function
on character lists: decompose to NFD, remove the combining marks (category
`Mn`), collapse whitespace runs to single spaces, strip, lower-case. -/
def normalizeChars (u : UnicodeData) (l : List Char) : List Char :=
  (pyStrip (collapseWs ((l.flatMap u.nfd).filter (fun c => !u.isMn c)))).map u.toLower

/-- `eliminar_tildes_y_normalizar` restricted to string input; the empty string
is falsy in Python, so the guard `if texto` returns it unchanged. -/
def normalizePyStr (u : UnicodeData) (s : String) : String :=
  if s = "" then s else ⟨normalizeChars u s.data⟩

/-- `eliminar_tildes_y_normalizar`: `none` stands for a non-string argument
(for example a missing field), which the guard returns unchanged. -/
def eliminar_tildes_y_normalizar (u : UnicodeData) : Option String → Option String
  | none => none
  | some s => some (normalizePyStr u s)

/-- The word-character class `\w` of the regex `\b\w+\b` (ASCII model:
alphanumeric or underscore). -/
def isWordChar (c : Char) : Bool := c.isAlphanum || c = '_'

/-- `re.findall` with pattern `\b\w+\b`: the maximal runs of word characters
of the text, in order. -/
def tokensOf : List Char → List (List Char)
  | [] => []
  | c :: rest =>
    if isWordChar c then
      (c :: rest.takeWhile isWordChar) :: tokensOf (rest.dropWhile isWordChar)
    else tokensOf rest
termination_by l => l.length
decreasing_by
  · exact Nat.lt_succ_of_le (List.Sublist.length_le (List.dropWhile_sublist _))
  · exact Nat.lt_succ_self _

/-- `set(re.findall(r'\b\w+\b', texto))`, the token set of a text. -/
def palabrasTexto (texto : String) : Finset String :=
  ((tokensOf texto.data).map (fun t => (⟨t⟩ : String))).toFinset

/-- `calcular_puntaje_palabra` (lines 349-386): normalize `Nombre` and
`Descripcion` (empty string when the field is null), join them with one space,
tokenize, subtract the blacklist from the token set, intersect with the keyword
set and award 10 points per keyword found. -/
def calcular_puntaje_palabra (u : UnicodeData) (nombre descripcion : Option String)
    (palabras_clave_set lista_negra : Finset String) : ℕ :=
  let n := match nombre with | some s => normalizePyStr u s | none => ""
  let d := match descripcion with | some s => normalizePyStr u s | none => ""
  let texto := n ++ " " ++ d
  let palabras_texto := palabrasTexto texto \ lista_negra
  let palabras_encontradas := palabras_clave_set ∩ palabras_texto
  palabras_encontradas.card * 10

/-- `calcular_puntaje_rubro` (lines 388-423): 5 points per configured rubro
label that is non-empty and occurs as a substring of the `Rubro3` column, plus
10 points when the stripped product code of the row is an exact member of some
configured product list. The sets `rubros_presentes` and `productos_presentes`
mirror the Python sets; note that the loop only ever inserts the code of the
row itself into `productos_presentes`. -/
def calcular_puntaje_rubro (rubro3 codigoProductoONU : Option String)
    (rubros_y_productos : List (String × List String)) : ℕ :=
  let rubro_column := rubro3.getD ""
  let codigo_producto_column := pyStripStr (codigoProductoONU.getD "")
  let rubros_presentes : Finset String :=
    ((rubros_y_productos.filter
      (fun rp => rp.1 ≠ "" ∧ rp.1.data <:+: rubro_column.data)).map Prod.fst).toFinset
  let productos_presentes : Finset String :=
    if rubros_y_productos.any (fun rp => rp.2.contains codigo_producto_column)
    then {codigo_producto_column} else ∅
  rubros_presentes.card * 5 + productos_presentes.card * 10

/-- Modelled from the words of the specification (section 4.4), for comparison
with `calcular_puntaje_rubro`: add 5 per configured category label that is a
substring of the category text, and 10 per configured product identifier that
is a substring of the product text, each family collected into a set first. -/
def puntaje_rubro_spec (rubro3 codigoProductoONU : Option String)
    (rubros_y_productos : List (String × List String)) : ℕ :=
  let rubro_column := rubro3.getD ""
  let producto_column := pyStripStr (codigoProductoONU.getD "")
  let labels : Finset String :=
    ((rubros_y_productos.filter
      (fun rp => rp.1 ≠ "" ∧ rp.1.data <:+: rubro_column.data)).map Prod.fst).toFinset
  let prods : Finset String :=
    ((rubros_y_productos.flatMap Prod.snd).filter
      (fun p => p.data <:+: producto_column.data)).toFinset
  labels.card * 5 + prods.card * 10

/-- The table `montos_por_tipo` of `calcular_puntaje_monto`, with the
`dict.get` default of 0 for unknown codes. -/
def montos_por_tipo (tipo : String) : ℚ :=
  if tipo = "L1" then 0 else if tipo = "LE" then 100 else if tipo = "LP" then 1000
  else if tipo = "LQ" then 2000 else if tipo = "LR" then 5000 else if tipo = "LS" then 0
  else if tipo = "E2" then 0 else if tipo = "CO" then 100 else if tipo = "B2" then 1000
  else if tipo = "H2" then 2000 else if tipo = "I2" then 5000 else 0

/-- Value of a digit character. -/
def digitVal (c : Char) : ℕ := c.toNat - 48

/-- Numeric value of a digit run. -/
def digitsVal (l : List Char) : ℕ := l.foldl (fun a c => 10 * a + digitVal c) 0

/-- Model of Python `float` applied to a string: optional surrounding
whitespace, an optional sign, then digits with an optional fractional part and
an optional decimal exponent; at least one digit must be present before the
exponent. `none` models the `ValueError` raised on any other input. The
special forms `inf` and `nan` of Python, which have no rational value, are
also sent to `none`; `calcular_puntaje_monto` returns 0 on them exactly as it
does on `none` here, so the modelled scores agree. Digit-group underscores
are not modelled. -/
def pyFloat (s : String) : Option ℚ :=
  let l := pyStrip s.data
  let sign : ℚ := if l.head? = some '-' then -1 else 1
  let l := if l.head? = some '-' || l.head? = some '+' then l.tail else l
  let intDigits := l.takeWhile Char.isDigit
  let l := l.dropWhile Char.isDigit
  let fracDigits := if l.head? = some '.' then l.tail.takeWhile Char.isDigit else []
  let l := if l.head? = some '.' then l.tail.dropWhile Char.isDigit else l
  if intDigits = [] ∧ fracDigits = [] then none
  else
    let mantisa : ℚ :=
      sign * ((digitsVal intDigits : ℚ) + (digitsVal fracDigits : ℚ) / 10 ^ fracDigits.length)
    match l with
    | [] => some mantisa
    | e :: resto =>
      if e = 'e' ∨ e = 'E' then
        let esign : ℤ := if resto.head? = some '-' then -1 else 1
        let resto := if resto.head? = some '-' || resto.head? = some '+' then resto.tail else resto
        let expDigits := resto.takeWhile Char.isDigit
        if expDigits = [] ∨ resto.dropWhile Char.isDigit ≠ [] then none
        else some (mantisa * 10 ^ (esign * (digitsVal expDigits : ℤ)))
      else none

/-- `calcular_puntaje_monto` (lines 426-456): base amount looked up by the
stripped, upper-cased type code; divided by the contract duration when that
parses as a float strictly greater than 0, and 0 otherwise (including the
`ValueError` branch). -/
def calcular_puntaje_monto (tipo_licitacion tiempo_duracion_contrato : String) : ℚ :=
  let tipo := pyUpperStr (pyStripStr tipo_licitacion)
  let monto_base := montos_por_tipo tipo
  match pyFloat tiempo_duracion_contrato with
  | some tiempo_duracion =>
    if 0 < tiempo_duracion then monto_base / tiempo_duracion else 0
  | none => 0

/-- `calcular_puntaje_clientes` (lines 458-478): 0 for an empty organism name,
otherwise the score of the lower-cased, stripped, normalized name in the
client mapping, with default 0. -/
def calcular_puntaje_clientes (u : UnicodeData) (nombre_organismo : String)
    (puntaje_clientes : List (String × ℕ)) : ℕ :=
  if nombre_organismo = "" then 0
  else
    let cliente_normalizado :=
      normalizePyStr u (pyStripStr (pyLowerStr u nombre_organismo))
    (puntaje_clientes.lookup cliente_normalizado).getD 0

/-- The fixed exclusion list `SALUD_EXCLUIR` (lines 39-48). -/
def SALUD_EXCLUIR : List String := [
  "CENTRO DE SALUD", "PREHOSPITALARIA", "REFERENCIA DE SALUD",
  "REFERENCIAL DE SALUD", "ONCOLOGICO", "CESFAM", "COMPLEJO ASISTENCIAL",
  "CONSULTORIO", "CRS", "HOSPITAL", "INSTITUTO DE NEUROCIRUGÍA",
  "INSTITUTO DE SALUD PÚBLICA DE CHILE", "INSTITUTO NACIONAL DE GERIATRIA",
  "INSTITUTO NACIONAL DE REHABILITACION", "INSTITUTO NACIONAL DEL CANCER",
  "INSTITUTO NACIONAL DEL TORAX", "INSTITUTO PSIQUIÁTRICO",
  "SERV NAC SALUD", "SERV SALUD", "SERVICIO DE SALUD",
  "SERVICIO NACIONAL DE SALUD", "SERVICIO SALUD", "INSTITUTO DE DESARROLLO AGROPECUARIO"]

/-- The health filter of lines 805-817: the exclusion pattern is the
alternation of the lower-cased terms (`re.escape(termino.lower())`), matched
against the normalized organism name; a row is kept when no term matches. The
`case=False` flag adds nothing here because both sides are already
lower-cased, so it is not modelled. -/
def pasaFiltroSalud (u : UnicodeData) (nombreOrganismo : String) : Bool :=
  let normalizado := normalizePyStr u nombreOrganismo
  !(SALUD_EXCLUIR.any (fun t => decide ((pyLowerStr u t).data <:+: normalizado.data)))

/-- The columns of one licitación row that the scoring steps consume. `none`
models a null cell. -/
structure Licitacion where
  codigoExterno : String
  nombre : Option String
  descripcion : Option String
  nombreOrganismo : String
  rubro3 : Option String
  codigoProductoONU : Option String
  tipo : String
  tiempoDuracionContrato : String
deriving DecidableEq

/-- The run configuration read from the spreadsheet, as consumed by the
scoring functions. -/
structure Config where
  palabrasClave : Finset String
  listaNegra : Finset String
  rubrosYProductos : List (String × List String)
  puntajeClientes : List (String × ℕ)

/-- A licitación with the five score columns added by lines 831-851. -/
structure ScoredRow where
  base : Licitacion
  puntajePalabra : ℚ
  puntajeRubro : ℚ
  puntajeMonto : ℚ
  puntajeClientes : ℚ
  puntajeTotal : ℚ
deriving DecidableEq

/-- Lines 831-851: compute the four score columns of a row and their sum
`Puntaje Total`. -/
def scoreRow (u : UnicodeData) (cfg : Config) (r : Licitacion) : ScoredRow :=
  let pp : ℚ := calcular_puntaje_palabra u r.nombre r.descripcion cfg.palabrasClave cfg.listaNegra
  let pr : ℚ := calcular_puntaje_rubro r.rubro3 r.codigoProductoONU cfg.rubrosYProductos
  let pm : ℚ := calcular_puntaje_monto r.tipo r.tiempoDuracionContrato
  let pc : ℚ := calcular_puntaje_clientes u r.nombreOrganismo cfg.puntajeClientes
  { base := r, puntajePalabra := pp, puntajeRubro := pr, puntajeMonto := pm,
    puntajeClientes := pc, puntajeTotal := pr + pp + pm + pc }

/-- Order of the duplicate-removal step: `Puntaje Total` descending. The
pandas sort is modelled by a stable sort with this relation. -/
def ordenTotal (a b : ScoredRow) : Prop := b.puntajeTotal ≤ a.puntajeTotal

instance : DecidableRel ordenTotal :=
  fun a b => inferInstanceAs (Decidable (b.puntajeTotal ≤ a.puntajeTotal))

instance : IsTotal ScoredRow ordenTotal := ⟨fun a b => le_total b.puntajeTotal a.puntajeTotal⟩

instance : IsTrans ScoredRow ordenTotal := ⟨fun _ _ _ h1 h2 => le_trans h2 h1⟩

/-- `drop_duplicates(subset='CodigoExterno', keep='first')`: keep the first row
of each external code. -/
def dropDupCodigo (seen : List String) : List ScoredRow → List ScoredRow
  | [] => []
  | r :: rest =>
    if r.base.codigoExterno ∈ seen then dropDupCodigo seen rest
    else r :: dropDupCodigo (r.base.codigoExterno :: seen) rest

/-- Lines 856-858: sort by `Puntaje Total` descending, then keep the first row
per `CodigoExterno`. -/
def licitacionesUnique (rows : List ScoredRow) : List ScoredRow :=
  dropDupCodigo [] (rows.insertionSort ordenTotal)

/-- Sort key of the Top-100 step: the tuple of the four sub-scores in the
fixed priority order rubro, palabra, monto, clientes, compared
lexicographically. -/
def claveTupla (r : ScoredRow) : Lex (ℚ × Lex (ℚ × Lex (ℚ × ℚ))) :=
  toLex (r.puntajeRubro, toLex (r.puntajePalabra, toLex (r.puntajeMonto, r.puntajeClientes)))

/-- Order of the Top-100 step: tuple key descending. -/
def ordenTupla (a b : ScoredRow) : Prop := claveTupla b ≤ claveTupla a

instance : DecidableRel ordenTupla :=
  fun a b => inferInstanceAs (Decidable (claveTupla b ≤ claveTupla a))

instance : IsTotal ScoredRow ordenTupla := ⟨fun a b => le_total (claveTupla b) (claveTupla a)⟩

instance : IsTrans ScoredRow ordenTupla := ⟨fun _ _ _ h1 h2 => le_trans h2 h1⟩

/-- Lines 885-890: sort the deduplicated rows by the four sub-score columns,
all descending, and take the first 100. -/
def top100 (rows : List ScoredRow) : List ScoredRow :=
  ((licitacionesUnique rows).insertionSort ordenTupla).take 100

/-- Lines 899-911, one column: divide each score by the column total over the
Top-100 set and scale by 100 when the total is positive; otherwise every entry
of the relative column is 0. -/
def puntajeRelativo (xs : List ℚ) : List ℚ :=
  xs.map (fun x => if 0 < xs.sum then x / xs.sum * 100 else 0)

/-- The rubro score column of a row list. -/
def columnaRubro (l : List ScoredRow) : List ℚ := l.map (fun r => r.puntajeRubro)

/-- The palabra score column of a row list. -/
def columnaPalabra (l : List ScoredRow) : List ℚ := l.map (fun r => r.puntajePalabra)

/-- The monto score column of a row list. -/
def columnaMonto (l : List ScoredRow) : List ℚ := l.map (fun r => r.puntajeMonto)

/-- The clientes score column of a row list. -/
def columnaClientes (l : List ScoredRow) : List ℚ := l.map (fun r => r.puntajeClientes)

/-- A small concrete Unicode table: identity decomposition, no combining
marks, identity lower-casing. -/
def unicodeTrivial : UnicodeData where
  nfd c := [c]
  isMn _ := false
  toLower c := c
/-- Concrete Unicode tables for the Spanish characters appearing in the data:
NFD decompositions of the precomposed accented letters, the combining marks
acute / tilde / diaeresis as category `Mn`, and lower-casing for ASCII and the
accented capitals. -/
def unicodeEs : UnicodeData where
  nfd c :=
    if c = 'á' then ['a', '́'] else if c = 'é' then ['e', '́']
    else if c = 'í' then ['i', '́'] else if c = 'ó' then ['o', '́']
    else if c = 'ú' then ['u', '́'] else if c = 'Á' then ['A', '́']
    else if c = 'É' then ['E', '́'] else if c = 'Í' then ['I', '́']
    else if c = 'Ó' then ['O', '́'] else if c = 'Ú' then ['U', '́']
    else if c = 'ñ' then ['n', '̃'] else if c = 'Ñ' then ['N', '̃']
    else if c = 'ü' then ['u', '̈'] else if c = 'Ü' then ['U', '̈']
    else [c]
  isMn c := c = '́' || c = '̃' || c = '̈'
  toLower c :=
    if c = 'Á' then 'á' else if c = 'É' then 'é' else if c = 'Í' then 'í'
    else if c = 'Ó' then 'ó' else if c = 'Ú' then 'ú' else if c = 'Ñ' then 'ñ'
    else if c = 'Ü' then 'ü'
    else if 'A' ≤ c ∧ c ≤ 'Z' then Char.ofNat (c.toNat + 32) else c
/-- Both-sided relation stating that two adjacent characters are not both
whitespace. -/
def NoDosEspacios (l : List Char) : Prop :=
  List.Chain' (fun a b => isSpaceChar a = false ∨ isSpaceChar b = false) l
/-- Every whitespace character of the list is the plain space. -/
def EspaciosBlancos (l : List Char) : Prop :=
  ∀ c ∈ l, isSpaceChar c = true → c = ' '
/-- Facts about the Unicode tables that the idempotence argument needs; each
is guaranteed by the Unicode standard for NFD decompositions, combining-mark
classification, white space and lower-casing. -/
structure SaneUnicode (u : UnicodeData) : Prop where
  nfd_stable : ∀ c d, d ∈ u.nfd c → u.nfd d = [d]
  nfd_space : u.nfd ' ' = [' ']
  isMn_space : u.isMn ' ' = false
  lower_space : u.toLower ' ' = ' '
  lower_stable : ∀ d, u.nfd d = [d] → u.isMn d = false →
    u.nfd (u.toLower d) = [u.toLower d] ∧ u.isMn (u.toLower d) = false
  lower_ws : ∀ c, isSpaceChar (u.toLower c) = isSpaceChar c
  lower_idem : ∀ c, u.toLower (u.toLower c) = u.toLower c
/-- A licitación record used as concrete input in witnesses. -/
def filaEjemplo (cod : String) : Licitacion :=
  { codigoExterno := cod, nombre := none, descripcion := none, nombreOrganismo := "",
    rubro3 := none, codigoProductoONU := none, tipo := "", tiempoDuracionContrato := "" }
/-- Scored example row: code A, total 1. -/
def filaBaja : ScoredRow :=
  { base := filaEjemplo "A", puntajePalabra := 0, puntajeRubro := 0, puntajeMonto := 0,
    puntajeClientes := 1, puntajeTotal := 1 }
/-- Scored example row: code A, total 2. -/
def filaAlta : ScoredRow :=
  { base := filaEjemplo "A", puntajePalabra := 0, puntajeRubro := 2, puntajeMonto := 0,
    puntajeClientes := 0, puntajeTotal := 2 }
/-- Scored example row: code B, rubro 3. -/
def filaRubro : ScoredRow :=
  { base := filaEjemplo "B", puntajePalabra := 0, puntajeRubro := 3, puntajeMonto := 2,
    puntajeClientes := 0, puntajeTotal := 5 }
/-- Scored example row: code C, rubro 1. -/
def filaRubro2 : ScoredRow :=
  { base := filaEjemplo "C", puntajePalabra := 0, puntajeRubro := 1, puntajeMonto := 2,
    puntajeClientes := 0, puntajeTotal := 3 }

lemma dropDupCodigo_mem (l : List ScoredRow) :
    ∀ seen, ∀ r ∈ dropDupCodigo seen l, r ∈ l ∧ r.base.codigoExterno ∉ seen := by
  induction l with
  | nil => intro seen r hr; simp [dropDupCodigo] at hr
  | cons a rest ih =>
    intro seen r hr
    simp only [dropDupCodigo] at hr
    by_cases ha : a.base.codigoExterno ∈ seen
    · rw [if_pos ha] at hr
      obtain ⟨h1, h2⟩ := ih seen r hr
      exact ⟨List.mem_cons_of_mem _ h1, h2⟩
    · rw [if_neg ha] at hr
      rcases List.mem_cons.mp hr with h | h
      · subst h; exact ⟨List.mem_cons_self _ _, ha⟩
      · obtain ⟨h1, h2⟩ := ih _ r h
        exact ⟨List.mem_cons_of_mem _ h1, fun hs => h2 (List.mem_cons_of_mem _ hs)⟩

lemma dropDupCodigo_pairwise (l : List ScoredRow) :
    ∀ seen, (dropDupCodigo seen l).Pairwise
      (fun a b => a.base.codigoExterno ≠ b.base.codigoExterno) := by
  induction l with
  | nil => intro seen; simp [dropDupCodigo]
  | cons a rest ih =>
    intro seen
    simp only [dropDupCodigo]
    by_cases ha : a.base.codigoExterno ∈ seen
    · rw [if_pos ha]; exact ih seen
    · rw [if_neg ha]
      refine List.Pairwise.cons ?_ (ih _)
      intro b hb hEq
      exact (dropDupCodigo_mem rest _ b hb).2 (by rw [← hEq]; exact List.mem_cons_self _ _)

lemma dropDupCodigo_max (l : List ScoredRow)
    (hsort : l.Pairwise (fun a b => b.puntajeTotal ≤ a.puntajeTotal)) :
    ∀ seen, ∀ r ∈ dropDupCodigo seen l, ∀ s ∈ l,
      s.base.codigoExterno = r.base.codigoExterno → s.puntajeTotal ≤ r.puntajeTotal := by
  induction l with
  | nil => intro seen r hr; simp [dropDupCodigo] at hr
  | cons a rest ih =>
    intro seen r hr s hs hcode
    rw [List.pairwise_cons] at hsort
    simp only [dropDupCodigo] at hr
    by_cases ha : a.base.codigoExterno ∈ seen
    · rw [if_pos ha] at hr
      rcases List.mem_cons.mp hs with h | h
      · subst h
        exact absurd (hcode ▸ ha) (dropDupCodigo_mem rest seen r hr).2
      · exact ih hsort.2 seen r hr s h hcode
    · rw [if_neg ha] at hr
      rcases List.mem_cons.mp hr with h | h
      · subst h
        rcases List.mem_cons.mp hs with h2 | h2
        · subst h2; exact le_refl _
        · exact hsort.1 s h2
      · rcases List.mem_cons.mp hs with h2 | h2
        · subst h2
          exact absurd (by rw [← hcode]; exact List.mem_cons_self _ _)
            (dropDupCodigo_mem rest _ r h).2
        · exact ih hsort.2 _ r h s h2 hcode

lemma insertionSort_total_sorted (rows : List ScoredRow) :
    (rows.insertionSort ordenTotal).Pairwise (fun a b => b.puntajeTotal ≤ a.puntajeTotal) :=
  List.sorted_insertionSort ordenTotal rows

/-- Claim C6: after the duplicate-removal step of lines 856-858 no two rows
share `CodigoExterno`, and every surviving row carries a `Puntaje Total` that
is maximal among the input rows with its code. -/
theorem dedup_unique_y_maximo (rows : List ScoredRow) :
    (licitacionesUnique rows).Pairwise
      (fun a b => a.base.codigoExterno ≠ b.base.codigoExterno)
  ∧ ∀ r ∈ licitacionesUnique rows, ∀ s ∈ rows,
      s.base.codigoExterno = r.base.codigoExterno → s.puntajeTotal ≤ r.puntajeTotal := by
  constructor
  · exact dropDupCodigo_pairwise _ []
  · intro r hr s hsm hcode
    have hs' : s ∈ rows.insertionSort ordenTotal :=
      ((List.perm_insertionSort ordenTotal rows).mem_iff).mpr hsm
    exact dropDupCodigo_max _ (insertionSort_total_sorted rows) [] r hr s hs' hcode

theorem dedup_unique_y_maximo_witness :
    filaAlta ∈ licitacionesUnique [filaBaja, filaAlta]
  ∧ filaBaja ∈ [filaBaja, filaAlta]
  ∧ filaBaja.base.codigoExterno = filaAlta.base.codigoExterno
  ∧ filaBaja.puntajeTotal ≤ filaAlta.puntajeTotal := by
  refine ⟨by decide, by decide, by decide, ?_⟩
  exact (dedup_unique_y_maximo [filaBaja, filaAlta]).2 filaAlta (by decide)
    filaBaja (by decide) (by decide)

/-- Claim C2: the Top-100 list handed to the relative weighting step is sorted
in descending lexicographic order of the tuple (rubro, palabra, monto,
clientes) — the sorted list being a permutation of the deduplicated set — and
has min 100 (number of deduplicated rows) entries. -/
theorem top100_orden_tupla (rows : List ScoredRow) :
    List.Sorted (fun a b => claveTupla b ≤ claveTupla a) (top100 rows)
  ∧ (top100 rows).length = min 100 (licitacionesUnique rows).length
  ∧ ((licitacionesUnique rows).insertionSort ordenTupla).Perm (licitacionesUnique rows) := by
  refine ⟨?_, ?_, List.perm_insertionSort _ _⟩
  · have h := List.sorted_insertionSort ordenTupla (licitacionesUnique rows)
    exact List.Pairwise.sublist (List.take_sublist 100 _) h
  · rw [top100, List.length_take, (List.perm_insertionSort _ _).length_eq]

lemma sum_map_div_mul (xs : List ℚ) (t : ℚ) :
    (xs.map (fun x => x / t * 100)).sum = xs.sum / t * 100 := by
  induction xs with
  | nil => simp
  | cons a l ih => simp only [List.map_cons, List.sum_cons, ih]; ring

lemma puntajeRelativo_sum_pos {xs : List ℚ} (h : 0 < xs.sum) :
    (puntajeRelativo xs).sum = 100 := by
  have h0 : xs.sum ≠ 0 := ne_of_gt h
  simp only [puntajeRelativo, if_pos h]
  rw [sum_map_div_mul, div_self h0, one_mul]

lemma puntajeRelativo_zero {xs : List ℚ} (h : xs.sum = 0) :
    ∀ x ∈ puntajeRelativo xs, x = 0 := by
  intro x hx
  rcases List.mem_map.mp hx with ⟨a, _, rfl⟩
  simp [h]

/-- Claim C1: within the Top-100 set, each of the four relative columns sums
to 100 when the raw column total is positive, and is identically 0 when the
raw column total is 0. -/
theorem relativos_suman_100 (rows : List ScoredRow) :
    (0 < (columnaRubro (top100 rows)).sum →
      (puntajeRelativo (columnaRubro (top100 rows))).sum = 100)
  ∧ ((columnaRubro (top100 rows)).sum = 0 →
      ∀ x ∈ puntajeRelativo (columnaRubro (top100 rows)), x = 0)
  ∧ (0 < (columnaPalabra (top100 rows)).sum →
      (puntajeRelativo (columnaPalabra (top100 rows))).sum = 100)
  ∧ ((columnaPalabra (top100 rows)).sum = 0 →
      ∀ x ∈ puntajeRelativo (columnaPalabra (top100 rows)), x = 0)
  ∧ (0 < (columnaMonto (top100 rows)).sum →
      (puntajeRelativo (columnaMonto (top100 rows))).sum = 100)
  ∧ ((columnaMonto (top100 rows)).sum = 0 →
      ∀ x ∈ puntajeRelativo (columnaMonto (top100 rows)), x = 0)
  ∧ (0 < (columnaClientes (top100 rows)).sum →
      (puntajeRelativo (columnaClientes (top100 rows))).sum = 100)
  ∧ ((columnaClientes (top100 rows)).sum = 0 →
      ∀ x ∈ puntajeRelativo (columnaClientes (top100 rows)), x = 0) :=
  ⟨fun h => puntajeRelativo_sum_pos h, fun h => puntajeRelativo_zero h,
   fun h => puntajeRelativo_sum_pos h, fun h => puntajeRelativo_zero h,
   fun h => puntajeRelativo_sum_pos h, fun h => puntajeRelativo_zero h,
   fun h => puntajeRelativo_sum_pos h, fun h => puntajeRelativo_zero h⟩

theorem relativos_suman_100_witness :
    (0 < (columnaRubro (top100 [filaRubro, filaRubro2])).sum)
  ∧ (puntajeRelativo (columnaRubro (top100 [filaRubro, filaRubro2]))).sum = 100
  ∧ (columnaClientes (top100 [filaRubro, filaRubro2])).sum = 0
  ∧ (puntajeRelativo (columnaClientes (top100 [filaRubro, filaRubro2]))).headI = 0 := by
  have htop : top100 [filaRubro, filaRubro2] = [filaRubro, filaRubro2] := by decide
  have h1 : 0 < (columnaRubro (top100 [filaRubro, filaRubro2])).sum := by
    rw [htop]; norm_num [columnaRubro, filaRubro, filaRubro2]
  have h3 : (columnaClientes (top100 [filaRubro, filaRubro2])).sum = 0 := by
    rw [htop]; norm_num [columnaClientes, filaRubro, filaRubro2]
  have hmem : (puntajeRelativo (columnaClientes (top100 [filaRubro, filaRubro2]))).headI
      ∈ puntajeRelativo (columnaClientes (top100 [filaRubro, filaRubro2])) := by
    rw [htop]; simp [puntajeRelativo, columnaClientes, filaRubro, filaRubro2]
  exact ⟨h1, (relativos_suman_100 [filaRubro, filaRubro2]).1 h1, h3,
    (relativos_suman_100 [filaRubro, filaRubro2]).2.2.2.2.2.2.2 h3 _ hmem⟩

/-- Claim C8: `Puntaje Total` is exactly the unweighted sum of the four
sub-scores, as computed on lines 844-851. -/
theorem puntaje_total_es_suma (u : UnicodeData) (cfg : Config) (r : Licitacion) :
    (scoreRow u cfg r).puntajeTotal =
      (scoreRow u cfg r).puntajeRubro + (scoreRow u cfg r).puntajePalabra +
      (scoreRow u cfg r).puntajeMonto + (scoreRow u cfg r).puntajeClientes := rfl

/-- Claim C3: the keyword score is 10 times the number of distinct keywords
found among the word tokens of the normalized name-and-description text after
the blacklist has been subtracted from the token set; in particular it is
always a non-negative multiple of 10. -/
theorem palabra_formula (u : UnicodeData) (nombre descripcion : Option String)
    (K B : Finset String) :
    calcular_puntaje_palabra u nombre descripcion K B
      = 10 * (K ∩ (palabrasTexto
          (((nombre.map (normalizePyStr u)).getD "") ++ " " ++
           ((descripcion.map (normalizePyStr u)).getD "")) \ B)).card
  ∧ ∃ k : ℕ, calcular_puntaje_palabra u nombre descripcion K B = 10 * k := by
  constructor
  · cases nombre <;> cases descripcion <;> simp [calcular_puntaje_palabra, Nat.mul_comm]
  · exact ⟨(K ∩ (palabrasTexto _ \ B)).card, by
      simp only [calcular_puntaje_palabra]; exact Nat.mul_comm _ 10⟩

/-- Claim C4, counterexample: with configuration `{"r": ["100"]}` and product
code "1001", the specification formula (10 per configured product identifier
that is a substring of the product text) gives 10, while the code, which tests
exact list membership of the product code of the row, gives 0. -/
theorem rubro_spec_discrepancia :
    puntaje_rubro_spec (some "") (some "1001") [("r", ["100"])]
      ≠ calcular_puntaje_rubro (some "") (some "1001") [("r", ["100"])] := by decide

/-- Claim C4 as amended: 5 points per configured category label (collected as
a set, no double counting) that is a substring of the category text; plus 10
points exactly when the stripped product code of the row is an exact member of
some configured product list (so the product contribution is 0 or 10, never
more); scenario B evaluates to 15. -/
theorem rubro_amended (rubro3 codigo : Option String)
    (ryp : List (String × List String)) :
    calcular_puntaje_rubro rubro3 codigo ryp =
      5 * ((ryp.filter (fun rp =>
            rp.1 ≠ "" ∧ rp.1.data <:+: (rubro3.getD "").data)).map Prod.fst).toFinset.card
      + (if ∃ rp ∈ ryp, pyStripStr (codigo.getD "") ∈ rp.2 then 10 else 0)
  ∧ calcular_puntaje_rubro (some "alimentos y bebidas") (some "1001")
      [("alimentos", ["1001", "1002"])] = 15 := by
  constructor
  · simp only [calcular_puntaje_rubro]
    have hiff : (ryp.any (fun rp => rp.2.contains (pyStripStr (codigo.getD "")))) = true
        ↔ ∃ rp ∈ ryp, pyStripStr (codigo.getD "") ∈ rp.2 := by
      simp [List.any_eq_true]
    by_cases h : ∃ rp ∈ ryp, pyStripStr (codigo.getD "") ∈ rp.2
    · rw [if_pos (hiff.mpr h), if_pos h]
      simp [Nat.mul_comm]
    · rw [if_neg (fun hc => h (hiff.mp hc)), if_neg h]
      simp [Nat.mul_comm]
  · decide

/-- Claim C5: the monetary score is the base amount of the upper-cased type
code divided by the duration when the duration parses as a float strictly
greater than 0, and 0 when parsing fails or the duration is not positive;
concrete guards: type LP with duration "10" gives 100, duration "0" and a
non-numeric duration give 0 for every type. -/
lemma pyFloat_diez : pyFloat "10" = some 10 := by
  have e1 : pyStrip "10".data = ['1', '0'] := by decide
  have e2 : digitsVal ['1', '0'] = 10 := by decide
  have e3 : digitsVal [] = 0 := by decide
  simp only [pyFloat, e1]
  simp +decide [e2, e3]

lemma pyFloat_cero : pyFloat "0" = some 0 := by
  have e1 : pyStrip "0".data = ['0'] := by decide
  have e2 : digitsVal ['0'] = 0 := by decide
  have e3 : digitsVal [] = 0 := by decide
  simp only [pyFloat, e1]
  simp +decide [e2, e3]

lemma pyFloat_nan : pyFloat "not-a-number" = none := by decide

theorem monto_guardas (t d : String) :
    (∀ x : ℚ, pyFloat d = some x → 0 < x →
      calcular_puntaje_monto t d = montos_por_tipo (pyUpperStr (pyStripStr t)) / x)
  ∧ (∀ x : ℚ, pyFloat d = some x → ¬ 0 < x → calcular_puntaje_monto t d = 0)
  ∧ (pyFloat d = none → calcular_puntaje_monto t d = 0)
  ∧ calcular_puntaje_monto "LP" "10" = 100
  ∧ calcular_puntaje_monto t "0" = 0
  ∧ calcular_puntaje_monto t "not-a-number" = 0 := by
  refine ⟨?_, ?_, ?_, ?_, ?_, ?_⟩
  · intro x hx hpos
    simp [calcular_puntaje_monto, hx, if_pos hpos]
  · intro x hx hpos
    simp [calcular_puntaje_monto, hx, if_neg hpos]
  · intro hx
    simp [calcular_puntaje_monto, hx]
  · have e : pyUpperStr (pyStripStr "LP") = "LP" := by decide
    simp only [calcular_puntaje_monto, pyFloat_diez, e, montos_por_tipo]
    simp +decide
    norm_num
  · simp [calcular_puntaje_monto, pyFloat_cero]
  · simp [calcular_puntaje_monto, pyFloat_nan]

theorem monto_guardas_witness :
    pyFloat "10" = some 10 ∧ (0 : ℚ) < 10
  ∧ calcular_puntaje_monto "LP" "10" = montos_por_tipo (pyUpperStr (pyStripStr "LP")) / 10 :=
  ⟨pyFloat_diez, by norm_num,
   (monto_guardas "LP" "10").1 10 pyFloat_diez (by norm_num)⟩

lemma tokensOf_wordChar (l : List Char) :
    ∀ t ∈ tokensOf l, ∀ c ∈ t, isWordChar c = true := by
  induction l using tokensOf.induct with
  | case1 => simp [tokensOf]
  | case2 c rest hc ih =>
    intro t ht x hx
    rw [tokensOf, if_pos hc] at ht
    rcases List.mem_cons.mp ht with h | h
    · subst h
      rcases List.mem_cons.mp hx with h2 | h2
      · subst h2; exact hc
      · exact List.mem_takeWhile_imp h2
    · exact ih t h x hx
  | case3 c rest hc ih =>
    intro t ht x hx
    rw [tokensOf, if_neg hc] at ht
    exact ih t ht x hx

lemma not_mem_palabrasTexto {p : String} (hp : ∃ c ∈ p.data, isWordChar c = false)
    (texto : String) : p ∉ palabrasTexto texto := by
  intro hmem
  obtain ⟨c, hc, hcw⟩ := hp
  rw [palabrasTexto, List.mem_toFinset] at hmem
  obtain ⟨t, ht, hEq⟩ := List.mem_map.mp hmem
  have hdata : p.data = t := by rw [← hEq]
  have := tokensOf_wordChar texto.data t ht c (hdata ▸ hc)
  rw [hcw] at this
  exact Bool.false_ne_true this

/-- Claim C10: a blacklist entry containing any non-word character (in
particular any phrase with a space) can never equal a word token, so adding it
to the blacklist does not change the keyword score of any row. -/
theorem lista_negra_frase_sin_efecto (u : UnicodeData) (nombre descripcion : Option String)
    (K B : Finset String) (p : String) (hp : ∃ c ∈ p.data, isWordChar c = false) :
    calcular_puntaje_palabra u nombre descripcion K (insert p B)
      = calcular_puntaje_palabra u nombre descripcion K B := by
  simp only [calcular_puntaje_palabra]
  rw [Finset.sdiff_insert, Finset.erase_eq_of_not_mem
    (fun hmem => not_mem_palabrasTexto hp _ (Finset.mem_sdiff.mp hmem).1)]

theorem lista_negra_frase_sin_efecto_witness :
    (∃ c ∈ "a b".data, isWordChar c = false)
  ∧ calcular_puntaje_palabra unicodeTrivial (some "x") none {"x"} (insert "a b" ∅)
      = calcular_puntaje_palabra unicodeTrivial (some "x") none {"x"} ∅ :=
  ⟨by decide,
   lista_negra_frase_sin_efecto unicodeTrivial (some "x") none {"x"} ∅ "a b" (by decide)⟩

lemma head_dropWhile (p : Char → Bool) (l : List Char) :
    ∀ y ∈ (l.dropWhile p).head?, p y = false := by
  induction l with
  | nil => simp
  | cons a t ih =>
    rw [List.dropWhile_cons]
    by_cases hpa : p a
    · simpa [hpa] using ih
    · simp [hpa, Bool.of_not_eq_true hpa]

lemma dropWhile_eq_self_of_head {p : Char → Bool} {l : List Char}
    (h : ∀ y ∈ l.head?, p y = false) : l.dropWhile p = l := by
  cases l with
  | nil => rfl
  | cons a t =>
    rw [List.dropWhile_cons, if_neg]
    simp only [List.head?_cons, Option.mem_def, Option.some.injEq] at h
    simp [h a rfl]

lemma chain'_dropWhile {R : Char → Char → Prop} {p : Char → Bool} {l : List Char}
    (h : List.Chain' R l) : List.Chain' R (l.dropWhile p) := by
  induction l with
  | nil => exact h
  | cons a t ih =>
    rw [List.dropWhile_cons]
    by_cases hpa : p a
    · rw [if_pos hpa]
      exact ih (List.chain'_cons'.mp h).2
    · rwa [if_neg hpa]

lemma mem_pyStrip {x : Char} {l : List Char} (h : x ∈ pyStrip l) : x ∈ l := by
  simp only [pyStrip, List.mem_reverse] at h
  have h2 := List.Sublist.mem h (List.dropWhile_sublist _)
  rw [List.mem_reverse] at h2
  exact List.Sublist.mem h2 (List.dropWhile_sublist _)

lemma noDos_pyStrip {l : List Char} (h : NoDosEspacios l) : NoDosEspacios (pyStrip l) := by
  unfold NoDosEspacios at *
  unfold pyStrip
  rw [List.chain'_reverse]
  apply List.Chain'.imp (fun a b hab => Or.symm hab)
  apply chain'_dropWhile
  rw [List.chain'_reverse]
  apply List.Chain'.imp (fun a b hab => Or.symm hab)
  exact chain'_dropWhile h

lemma espacios_pyStrip {l : List Char} (h : EspaciosBlancos l) :
    EspaciosBlancos (pyStrip l) :=
  fun c hc => h c (mem_pyStrip hc)

lemma pyStrip_head (l : List Char) :
    ∀ y ∈ (pyStrip l).head?, isSpaceChar y = false := by
  intro y hy
  unfold pyStrip at hy
  rw [List.head?_reverse] at hy
  rcases hd : List.dropWhile isSpaceChar ((l.dropWhile isSpaceChar).reverse) with _ | ⟨a, t⟩
  · rw [hd] at hy; simp at hy
  · rw [hd] at hy
    have hne : (a :: t) ≠ [] := by simp
    obtain ⟨pre, hpre⟩ := List.dropWhile_suffix
      (l := (l.dropWhile isSpaceChar).reverse) (p := isSpaceChar)
    rw [hd] at hpre
    have : (pre ++ a :: t).getLast? = (a :: t).getLast? :=
      List.getLast?_append_of_ne_nil pre hne
    rw [hpre, List.getLast?_reverse] at this
    rw [← this] at hy
    exact head_dropWhile isSpaceChar l y hy

lemma pyStrip_getLast (l : List Char) :
    ∀ y ∈ (pyStrip l).getLast?, isSpaceChar y = false := by
  intro y hy
  unfold pyStrip at hy
  rw [List.getLast?_reverse] at hy
  exact head_dropWhile isSpaceChar _ y hy

lemma collapseWs_chars (l : List Char) :
    ∀ x ∈ collapseWs l, x = ' ' ∨ (x ∈ l ∧ isSpaceChar x = false) := by
  induction l using collapseWs.induct with
  | case1 => simp [collapseWs]
  | case2 c rest hc ih =>
    intro x hx
    rw [collapseWs, if_pos hc] at hx
    rcases List.mem_cons.mp hx with h | h
    · exact Or.inl h
    · rcases ih x h with h2 | ⟨h3, h4⟩
      · exact Or.inl h2
      · exact Or.inr ⟨List.mem_cons_of_mem _ (List.Sublist.mem h3 (List.dropWhile_sublist _)), h4⟩
  | case3 c rest hc ih =>
    intro x hx
    rw [collapseWs, if_neg hc] at hx
    rcases List.mem_cons.mp hx with h | h
    · subst h; exact Or.inr ⟨List.mem_cons_self _ _, Bool.of_not_eq_true hc⟩
    · rcases ih x h with h2 | ⟨h3, h4⟩
      · exact Or.inl h2
      · exact Or.inr ⟨List.mem_cons_of_mem _ h3, h4⟩

lemma collapseWs_espacios (l : List Char) : EspaciosBlancos (collapseWs l) := by
  intro c hc hs
  rcases collapseWs_chars l c hc with h | ⟨_, h2⟩
  · exact h
  · exact absurd hs (by simp [h2])

lemma collapseWs_head_nonspace (l : List Char) (hl : ∀ x ∈ l.head?, isSpaceChar x = false) :
    ∀ y ∈ (collapseWs l).head?, isSpaceChar y = false := by
  cases l with
  | nil => simp [collapseWs]
  | cons c rest =>
    have hc : isSpaceChar c = false := by
      simp only [List.head?_cons, Option.mem_def, Option.some.injEq] at hl
      exact hl c rfl
    rw [collapseWs, if_neg (by simp [hc])]
    intro y hy
    simp only [List.head?_cons, Option.mem_def, Option.some.injEq] at hy
    rw [← hy]
    exact hc

lemma collapseWs_noDos (l : List Char) : NoDosEspacios (collapseWs l) := by
  unfold NoDosEspacios
  induction l using collapseWs.induct with
  | case1 => simp [collapseWs]
  | case2 c rest hc ih =>
    rw [collapseWs, if_pos hc, List.chain'_cons']
    refine ⟨?_, ih⟩
    intro y hy
    exact Or.inr (collapseWs_head_nonspace _ (head_dropWhile _ _) y hy)
  | case3 c rest hc ih =>
    rw [collapseWs, if_neg hc, List.chain'_cons']
    exact ⟨fun y _ => Or.inl (Bool.of_not_eq_true hc), ih⟩

lemma collapseWs_eq_self {l : List Char} (hb : EspaciosBlancos l) (hd : NoDosEspacios l) :
    collapseWs l = l := by
  unfold NoDosEspacios at hd
  induction l with
  | nil => rw [collapseWs]
  | cons c rest ih =>
    by_cases hc : isSpaceChar c = true
    · rw [collapseWs, if_pos hc]
      have hcEq : c = ' ' := hb c (List.mem_cons_self _ _) hc
      have hrest : List.dropWhile isSpaceChar rest = rest := by
        apply dropWhile_eq_self_of_head
        intro y hy
        rcases (List.chain'_cons'.mp hd).1 y hy with h | h
        · rw [hc] at h; cases h
        · exact h
      rw [hrest, hcEq]
      congr 1
      exact ih (fun x hx => hb x (List.mem_cons_of_mem _ hx)) (List.chain'_cons'.mp hd).2
    · rw [collapseWs, if_neg hc]
      congr 1
      exact ih (fun x hx => hb x (List.mem_cons_of_mem _ hx)) (List.chain'_cons'.mp hd).2

lemma flatMap_eq_self {f : Char → List Char} {l : List Char} (h : ∀ x ∈ l, f x = [x]) :
    l.flatMap f = l := by
  induction l with
  | nil => simp
  | cons a t ih =>
    simp only [List.flatMap_cons, h a (List.mem_cons_self a t), List.singleton_append]
    rw [ih (fun x hx => h x (List.mem_cons_of_mem _ hx))]

lemma map_eq_self {f : Char → Char} {l : List Char} (h : ∀ x ∈ l, f x = x) :
    l.map f = l := by
  induction l with
  | nil => simp
  | cons a t ih =>
    simp only [List.map_cons, h a (List.mem_cons_self a t)]
    rw [ih (fun x hx => h x (List.mem_cons_of_mem _ hx))]

lemma pyStrip_eq_self (l : List Char) (h1 : ∀ y ∈ l.head?, isSpaceChar y = false)
    (h2 : ∀ y ∈ l.getLast?, isSpaceChar y = false) : pyStrip l = l := by
  unfold pyStrip
  rw [dropWhile_eq_self_of_head h1,
    dropWhile_eq_self_of_head (by rw [List.head?_reverse]; exact h2)]
  exact List.reverse_reverse l

lemma normalizeChars_mem {u : UnicodeData} (h : SaneUnicode u) (l : List Char) :
    ∀ x ∈ normalizeChars u l,
      u.nfd x = [x] ∧ u.isMn x = false ∧ u.toLower x = x ∧
      (isSpaceChar x = true → x = ' ') := by
  intro x hx
  unfold normalizeChars at hx
  obtain ⟨d, hd, rfl⟩ := List.mem_map.mp hx
  have hd2 := mem_pyStrip hd
  rcases collapseWs_chars _ d hd2 with hsp | ⟨hmem, hnsp⟩
  · subst hsp
    rw [h.lower_space]
    exact ⟨h.nfd_space, h.isMn_space, h.lower_space, fun _ => rfl⟩
  · rw [List.mem_filter] at hmem
    obtain ⟨hfm, hMn⟩ := hmem
    have hMnd : u.isMn d = false := by simpa using hMn
    obtain ⟨c, _, hdc⟩ := List.mem_flatMap.mp hfm
    have hstable : u.nfd d = [d] := h.nfd_stable c d hdc
    obtain ⟨hnfdl, hMnl⟩ := h.lower_stable d hstable hMnd
    refine ⟨hnfdl, hMnl, h.lower_idem d, ?_⟩
    intro hs
    rw [h.lower_ws d] at hs
    rw [hs] at hnsp
    cases hnsp

lemma normalizeChars_noDos {u : UnicodeData} (h : SaneUnicode u) (l : List Char) :
    NoDosEspacios (normalizeChars u l) := by
  unfold NoDosEspacios normalizeChars
  rw [List.chain'_map]
  apply List.Chain'.imp ?_ (noDos_pyStrip (collapseWs_noDos _))
  intro a b hab
  rcases hab with h1 | h1
  · exact Or.inl (by rw [h.lower_ws a]; exact h1)
  · exact Or.inr (by rw [h.lower_ws b]; exact h1)

lemma head_map_nonspace {u : UnicodeData} (h : SaneUnicode u) {m : List Char}
    (hm : ∀ y ∈ m.head?, isSpaceChar y = false) :
    ∀ y ∈ (m.map u.toLower).head?, isSpaceChar y = false := by
  intro y hy
  cases m with
  | nil => cases hy
  | cons a t =>
    simp only [List.map_cons, List.head?_cons, Option.mem_def, Option.some.injEq] at hy
    rw [← hy, h.lower_ws a]
    exact hm a (by simp)

lemma getLast_map_nonspace {u : UnicodeData} (h : SaneUnicode u) {m : List Char}
    (hm : ∀ y ∈ m.getLast?, isSpaceChar y = false) :
    ∀ y ∈ (m.map u.toLower).getLast?, isSpaceChar y = false := by
  intro y hy
  rw [List.getLast?_map] at hy
  cases hg : m.getLast? with
  | none => rw [hg] at hy; cases hy
  | some z =>
    rw [hg] at hy
    simp only [Option.map_some', Option.mem_def, Option.some.injEq] at hy
    rw [← hy, h.lower_ws z]
    exact hm z (by rw [hg]; rfl)

lemma normalizeChars_head {u : UnicodeData} (h : SaneUnicode u) (l : List Char) :
    ∀ y ∈ (normalizeChars u l).head?, isSpaceChar y = false := by
  unfold normalizeChars
  exact head_map_nonspace h (pyStrip_head _)

lemma normalizeChars_getLast {u : UnicodeData} (h : SaneUnicode u) (l : List Char) :
    ∀ y ∈ (normalizeChars u l).getLast?, isSpaceChar y = false := by
  unfold normalizeChars
  exact getLast_map_nonspace h (pyStrip_getLast _)

lemma normalizeChars_eq_self {u : UnicodeData} {l : List Char}
    (hchars : ∀ x ∈ l, u.nfd x = [x] ∧ u.isMn x = false ∧ u.toLower x = x ∧
      (isSpaceChar x = true → x = ' '))
    (hnd : NoDosEspacios l)
    (hh : ∀ y ∈ l.head?, isSpaceChar y = false)
    (hg : ∀ y ∈ l.getLast?, isSpaceChar y = false) :
    normalizeChars u l = l := by
  unfold normalizeChars
  rw [flatMap_eq_self (fun x hx => (hchars x hx).1),
    List.filter_eq_self.mpr (fun x hx => by simp [(hchars x hx).2.1]),
    collapseWs_eq_self (fun x hx hs => (hchars x hx).2.2.2 hs) hnd,
    pyStrip_eq_self _ hh hg]
  exact map_eq_self (fun x hx => (hchars x hx).2.2.1)

lemma normalizePyStr_idem {u : UnicodeData} (h : SaneUnicode u) (s : String) :
    normalizePyStr u (normalizePyStr u s) = normalizePyStr u s := by
  by_cases hs : s = ""
  · subst hs; simp [normalizePyStr]
  · have h1 : normalizePyStr u s = ⟨normalizeChars u s.data⟩ := by
      rw [normalizePyStr, if_neg hs]
    rw [h1]
    by_cases ho : (⟨normalizeChars u s.data⟩ : String) = ""
    · rw [normalizePyStr, if_pos ho]
    · rw [normalizePyStr, if_neg ho]
      congr 1
      exact normalizeChars_eq_self (normalizeChars_mem h s.data)
        (normalizeChars_noDos h s.data) (normalizeChars_head h s.data)
        (normalizeChars_getLast h s.data)

/-- Claim C9: the text normalizer is idempotent — applying
`eliminar_tildes_y_normalizar` twice gives the same result as applying it
once, for string input and for the pass-through non-string input alike; the
hypotheses on the Unicode tables are the standard facts about NFD,
combining marks and lower-casing that the Python library guarantees. -/
theorem normalizador_idempotente (u : UnicodeData) (h : SaneUnicode u) (x : Option String) :
    eliminar_tildes_y_normalizar u (eliminar_tildes_y_normalizar u x)
      = eliminar_tildes_y_normalizar u x := by
  cases x with
  | none => rfl
  | some s =>
    show some (normalizePyStr u (normalizePyStr u s)) = some (normalizePyStr u s)
    rw [normalizePyStr_idem h]

theorem normalizador_idempotente_witness :
    SaneUnicode unicodeTrivial
  ∧ eliminar_tildes_y_normalizar unicodeTrivial
      (eliminar_tildes_y_normalizar unicodeTrivial (some "  a  b  "))
      = eliminar_tildes_y_normalizar unicodeTrivial (some "  a  b  ") := by
  have hs : SaneUnicode unicodeTrivial := by
    constructor <;> simp [unicodeTrivial]
  exact ⟨hs, normalizador_idempotente unicodeTrivial hs (some "  a  b  ")⟩

lemma normaliza_neuro_minuscula :
    normalizePyStr unicodeEs "Instituto de Neurocirugía" = "instituto de neurocirugia" := by
  simp +decide [normalizePyStr, normalizeChars, unicodeEs, collapseWs, pyStrip, isSpaceChar]

lemma normaliza_neuro_mayuscula :
    normalizePyStr unicodeEs "INSTITUTO DE NEUROCIRUGÍA" = "instituto de neurocirugia" := by
  simp +decide [normalizePyStr, normalizeChars, unicodeEs, collapseWs, pyStrip, isSpaceChar]

/-- Claim C7 evaluation at the failing input: the organism name
"Instituto de Neurocirugía" matches the exclusion entry
"INSTITUTO DE NEUROCIRUGÍA" diacritic-insensitively — the two normalize to the
same string — yet `pasaFiltroSalud` keeps the tender, because the exclusion
pattern is built with `termino.lower()` alone, so the accent survives in the
pattern while it has been stripped from the organism name. -/
theorem filtro_salud_tilde_escapa :
    "INSTITUTO DE NEUROCIRUGÍA" ∈ SALUD_EXCLUIR
  ∧ normalizePyStr unicodeEs "INSTITUTO DE NEUROCIRUGÍA"
      = normalizePyStr unicodeEs "Instituto de Neurocirugía"
  ∧ pasaFiltroSalud unicodeEs "Instituto de Neurocirugía" = true := by
  refine ⟨by decide, ?_, ?_⟩
  · rw [normaliza_neuro_minuscula, normaliza_neuro_mayuscula]
  · rw [pasaFiltroSalud]
    rw [normaliza_neuro_minuscula]
    decide
